import Mathlib

/-!
Shallow embedding of `pulumi/provider-version-action` (`src/version.js`,
current variant, exported entry `calculateVersion`) together with the
exported helper `findVersionBranch` of the earlier variant of the same
file.  JavaScript strings are modelled as `String`/`List Char`, JavaScript
numbers as exact `Nat`/`Int` (the semver library's `MAX_SAFE_INTEGER`
checks are kept explicitly), thrown exceptions as `Except JsError`, and
the GitHub REST calls as an explicit record of injected responses.
-/

namespace ProviderVersion

/-- The kinds of JavaScript exception the code can raise: ordinary
`new Error(msg)`, the `TypeError` thrown by the semver constructor, and a
`ReferenceError` raised when evaluation touches an undefined variable. -/
inductive JsError where
  | error (msg : String)
  | typeError (msg : String)
  | referenceError (msg : String)
deriving DecidableEq, Repr

deriving instance DecidableEq for Except

/-- Boolean success test for a JavaScript computation. -/
def isOkB {α : Type} : Except JsError α → Bool
  | .ok _ => true
  | .error _ => false

/-! ## Character and decimal-number helpers -/

/-- Numeric value of a decimal digit character. -/
def digitVal (c : Char) : Nat := c.toNat - 48

/-- Value of a big-endian list of decimal digit characters
(the exact value of JavaScript `parseInt(s, 10)` on an all-digit string). -/
def parseDecDigits (cs : List Char) : Nat :=
  cs.foldl (fun a c => a * 10 + digitVal c) 0

/-- Value of a little-endian list of decimal digits. -/
def valLE (cs : List Char) : Nat := cs.foldr (fun c acc => acc * 10 + digitVal c) 0

/-- Little-endian decimal digits of `n`, with explicit fuel so the
recursion is structural. -/
def natToDecRev : Nat → Nat → List Char
  | 0, _ => []
  | fuel + 1, n => if n = 0 then [] else Char.ofNat (48 + n % 10) :: natToDecRev fuel (n / 10)

/-- Big-endian decimal digits of `n` (never empty). -/
def decDigitsOf (n : Nat) : List Char :=
  if n = 0 then ['0'] else (natToDecRev (n + 1) n).reverse

/-- JavaScript template interpolation `${n}` for a non-negative integer. -/
def jsNumToString (n : Nat) : String := String.mk (decDigitsOf n)

/-- JavaScript template interpolation `${i}` for an integer. -/
def intToString (i : Int) : String :=
  if i < 0 then "-" ++ jsNumToString i.natAbs else jsNumToString i.natAbs

/-! ## JavaScript string-method models (on `List Char`) -/

/-- Remove `pat` from the front of a list, or fail. -/
def stripPfx : List Char → List Char → Option (List Char)
  | [], s => some s
  | _ :: _, [] => none
  | p :: ps, c :: cs => if p = c then stripPfx ps cs else none

/-- JavaScript `s.startsWith(pat)`. -/
def jsStartsWith (s pat : String) : Bool := (stripPfx pat.toList s.toList).isSome

/-- JavaScript `s.endsWith(pat)`. -/
def jsEndsWith (s pat : String) : Bool :=
  (stripPfx pat.toList.reverse s.toList.reverse).isSome

/-- Replace the first occurrence of `pat` by the empty string
(JavaScript `s.replace(pat, "")` with a string pattern). -/
def replaceFirstList (pat : List Char) : List Char → List Char
  | [] => []
  | c :: rest =>
    match stripPfx pat (c :: rest) with
    | some r => r
    | none => c :: replaceFirstList pat rest

/-- JavaScript `s.replace(pat, "")`. -/
def jsReplaceFirst (pat s : String) : String := String.mk (replaceFirstList pat.toList s.toList)

/-- JavaScript `sha.slice(0, 7)`, i.e. the `shortHash` helper of the source. -/
def shortHash (sha : String) : String := String.mk (sha.toList.take 7)

/-- Split a list on a separator character; always returns at least one group. -/
def splitOnChar (sep : Char) : List Char → List (List Char)
  | [] => [[]]
  | c :: rest =>
    match splitOnChar sep rest with
    | [] => [[]]
    | g :: gs => if c = sep then [] :: g :: gs else (c :: g) :: gs

/-- Split at the first occurrence of `sep`: the part before it and,
when `sep` occurs, the part after it. -/
def breakAtFirst (sep : Char) : List Char → List Char × Option (List Char)
  | [] => ([], none)
  | c :: rest =>
    if c = sep then ([], some rest)
    else
      let p := breakAtFirst sep rest
      (c :: p.1, p.2)

/-- JavaScript `String.prototype.trim`. -/
def trimList (cs : List Char) : List Char :=
  ((cs.dropWhile Char.isWhitespace).reverse.dropWhile Char.isWhitespace).reverse

/-! ## The semver model (`node-semver`, strict mode)

`SemVer.parse` recognises exactly the strict `FULL` pattern
`^v?(0|[1-9]\d*)\.(0|[1-9]\d*)\.(0|[1-9]\d*)(-prerelease)?(+build)?$`
of `node-semver`, with the length-256 and `MAX_SAFE_INTEGER` bounds of the
`SemVer` constructor; `.version`/`format()` renders
`major.minor.patch[-prerelease]`, dropping build metadata. -/

/-- `Number.MAX_SAFE_INTEGER`. -/
def maxSafeInteger : Nat := 9007199254740991

structure SemVer where
  major : Nat
  minor : Nat
  patch : Nat
  prerelease : List String
  build : List String
deriving DecidableEq, Repr

def SemVer.zero : SemVer := ⟨0, 0, 0, [], []⟩

/-- Character class `[0-9A-Za-z-]` of semver identifiers. -/
def isIdentChar (c : Char) : Bool := c.isAlphanum || c = '-'

/-- True unless the list is a multi-character run that starts with `0`. -/
def noLeadingZero : List Char → Bool
  | c :: _ :: _ => c != '0'
  | _ => true

/-- Parse a numeric identifier `0|[1-9]\d*`. -/
def numericIdentVal? (cs : List Char) : Option Nat :=
  if !cs.isEmpty && cs.all Char.isDigit && noLeadingZero cs then
    some (parseDecDigits cs)
  else none

/-- A pre-release identifier: `0|[1-9]\d*|\d*[a-zA-Z-][a-zA-Z0-9-]*`. -/
def prereleaseIdentOk (cs : List Char) : Bool :=
  !cs.isEmpty && cs.all isIdentChar && (!cs.all Char.isDigit || noLeadingZero cs)

/-- A build identifier: `[0-9A-Za-z-]+`. -/
def buildIdentOk (cs : List Char) : Bool := !cs.isEmpty && cs.all isIdentChar

/-- Parse `major.minor.patch`, enforcing the constructor's
`MAX_SAFE_INTEGER` bound on each component. -/
def parseMMP (nums : List Char) : Option (Nat × Nat × Nat) :=
  match splitOnChar '.' nums with
  | [ma, mi, pa] =>
    (numericIdentVal? ma).bind fun m =>
      (numericIdentVal? mi).bind fun n =>
        (numericIdentVal? pa).bind fun p =>
          if m ≤ maxSafeInteger ∧ n ≤ maxSafeInteger ∧ p ≤ maxSafeInteger then
            some (m, n, p)
          else none
  | _ => none

/-- Parse the character list of a semver string (leading `v` already removed). -/
def semverParseList (cs : List Char) : Option SemVer :=
  let bp := breakAtFirst '+' cs
  let np := breakAtFirst '-' bp.1
  match parseMMP np.1 with
  | none => none
  | some (m, n, p) =>
    let pre : Option (List (List Char)) :=
      match np.2 with
      | none => some []
      | some s => let ids := splitOnChar '.' s
                  if ids.all prereleaseIdentOk then some ids else none
    let bld : Option (List (List Char)) :=
      match bp.2 with
      | none => some []
      | some s => let ids := splitOnChar '.' s
                  if ids.all buildIdentOk then some ids else none
    match pre, bld with
    | some pr, some bl => some ⟨m, n, p, pr.map String.mk, bl.map String.mk⟩
    | _, _ => none

/-- `semver.parse(s)` (strict): `null` on invalid input becomes `none`. -/
def SemVer.parse (s : String) : Option SemVer :=
  if s.length > 256 then none
  else
    let cs := trimList s.toList
    let cs := if cs.head? = some 'v' then cs.tail else cs
    semverParseList cs

/-- `new SemVer(s)`: throws `TypeError("Invalid Version: …")` on invalid input. -/
def SemVer.new (s : String) : Except JsError SemVer :=
  match SemVer.parse s with
  | some v => .ok v
  | none => .error (.typeError ("Invalid Version: " ++ s))

/-- The `.version` field (`format()`): `major.minor.patch` plus the
pre-release part; build metadata is not rendered. -/
def SemVer.versionStr (v : SemVer) : String :=
  let core := jsNumToString v.major ++ "." ++ jsNumToString v.minor ++ "." ++ jsNumToString v.patch
  if v.prerelease.isEmpty then core else core ++ "-" ++ String.intercalate "." v.prerelease

inductive IncType where
  | major
  | minor
  | patch
deriving DecidableEq, Repr

/-- `SemVer.prototype.inc` for the release types `major`/`minor`/`patch`. -/
def SemVer.inc (v : SemVer) : IncType → SemVer
  | .major =>
    if v.minor ≠ 0 ∨ v.patch ≠ 0 ∨ v.prerelease = [] then ⟨v.major + 1, 0, 0, [], v.build⟩
    else ⟨v.major, 0, 0, [], v.build⟩
  | .minor =>
    if v.patch ≠ 0 ∨ v.prerelease = [] then ⟨v.major, v.minor + 1, 0, [], v.build⟩
    else ⟨v.major, v.minor, 0, [], v.build⟩
  | .patch =>
    if v.prerelease = [] then ⟨v.major, v.minor, v.patch + 1, [], v.build⟩
    else ⟨v.major, v.minor, v.patch, [], v.build⟩

/-! ## The `Date` model

`new Date(s).getTime()` for the ISO-8601 interchange forms the hosting
API returns: `YYYY-MM-DD`, interpreted at UTC midnight, and
`YYYY-MM-DDTHH:MM[:SS[.fff]]` followed by an explicit offset `Z` or
`±HH:MM`.  Other formats (including offset-less date-times, which
JavaScript reads in local time) are outside the model and map to `none`,
the model of an Invalid Date / `NaN` time value. -/

/-- Read exactly two decimal digits. -/
def read2 : List Char → Option (Nat × List Char)
  | a :: b :: rest =>
    if a.isDigit && b.isDigit then some (digitVal a * 10 + digitVal b, rest) else none
  | _ => none

/-- Read exactly four decimal digits. -/
def read4 : List Char → Option (Nat × List Char)
  | a :: b :: c :: d :: rest =>
    if a.isDigit && b.isDigit && c.isDigit && d.isDigit then
      some (((digitVal a * 10 + digitVal b) * 10 + digitVal c) * 10 + digitVal d, rest)
    else none
  | _ => none

def isLeapYear (y : Nat) : Bool := y % 4 = 0 && (y % 100 ≠ 0 || y % 400 = 0)

def daysInMonth (y m : Nat) : Nat :=
  if m = 2 then (if isLeapYear y then 29 else 28)
  else if m = 4 ∨ m = 6 ∨ m = 9 ∨ m = 11 then 30
  else 31

/-- Days from the civil (proleptic Gregorian) date to 1970-01-01. -/
def daysFromCivil (year : Int) (m d : Nat) : Int :=
  let y : Int := if m ≤ 2 then year - 1 else year
  let era : Int := Int.fdiv y 400
  let yoe : Int := y - era * 400
  let mp : Int := if m ≤ 2 then (m : Int) + 9 else (m : Int) - 3
  let doy : Int := Int.fdiv (153 * mp + 2) 5 + (d : Int) - 1
  let doe : Int := yoe * 365 + Int.fdiv yoe 4 - Int.fdiv yoe 100 + doy
  era * 146097 + doe - 719468

/-- Fractional-second digits after the `.`: at least one digit, the first
three of which carry millisecond weight. -/
def parseMillis (cs : List Char) : Option (Nat × List Char) :=
  let ds := cs.takeWhile Char.isDigit
  if ds.isEmpty then none
  else
    let v := parseDecDigits (ds.take 3)
    let scaled := if ds.length = 1 then v * 100 else if ds.length = 2 then v * 10 else v
    some (scaled, cs.drop ds.length)

/-- A trailing UTC designator `Z` or numeric offset `±HH:MM`, in minutes;
must consume the whole remainder of the string. -/
def parseOffset : List Char → Option Int
  | ['Z'] => some 0
  | [] => none
  | c :: rest =>
    if c = '+' ∨ c = '-' then
      match read2 rest with
      | some (oh, ':' :: rest₂) =>
        match read2 rest₂ with
        | some (om, []) =>
          if oh ≤ 23 ∧ om ≤ 59 then
            some (if c = '-' then -((oh * 60 + om : Nat) : Int) else ((oh * 60 + om : Nat) : Int))
          else none
        | _ => none
      | _ => none
    else none

/-- The optional `:SS[.fff]` part of a time. -/
def parseSecondsPart : List Char → Option (Nat × Nat × List Char)
  | ':' :: rest =>
    match read2 rest with
    | none => none
    | some (ss, rest') =>
      match rest' with
      | '.' :: rest'' =>
        match parseMillis rest'' with
        | none => none
        | some (ms, restF) => some (ss, ms, restF)
      | _ => some (ss, 0, rest')
  | rest => some (0, 0, rest)

/-- `new Date(s).getTime()`: milliseconds since the Unix epoch, or `none`
for an Invalid Date. -/
def jsDateParse (s : String) : Option Int :=
  match read4 s.toList with
  | none => none
  | some (y, rest) =>
    match rest with
    | '-' :: rest₁ =>
      match read2 rest₁ with
      | none => none
      | some (mo, rest₂) =>
        match rest₂ with
        | '-' :: rest₃ =>
          match read2 rest₃ with
          | none => none
          | some (d, rest₄) =>
            if 1 ≤ mo ∧ mo ≤ 12 ∧ 1 ≤ d ∧ d ≤ daysInMonth y mo then
              let dayMs : Int := daysFromCivil y mo d * 86400000
              match rest₄ with
              | [] => some dayMs
              | 'T' :: rest₅ =>
                match read2 rest₅ with
                | none => none
                | some (hh, rest₆) =>
                  match rest₆ with
                  | ':' :: rest₇ =>
                    match read2 rest₇ with
                    | none => none
                    | some (mi, rest₈) =>
                      match parseSecondsPart rest₈ with
                      | none => none
                      | some (ss, msv, restF) =>
                        if hh ≤ 23 ∧ mi ≤ 59 ∧ ss ≤ 59 then
                          match parseOffset restF with
                          | none => none
                          | some offMin =>
                            some (dayMs + ((hh * 3600000 + mi * 60000 + ss * 1000 + msv : Nat) : Int)
                                  - offMin * 60000)
                        else none
                  | _ => none
              | _ => none
            else none
        | _ => none
    | _ => none

/-! ## The action's data model

`Context` carries the fields of the GitHub Actions event context that
`calculateVersion` and `findVersionBranch` read; `GitHub` carries the
injected responses of the three REST endpoints the code calls. -/

structure Label where
  name : String
deriving DecidableEq, Repr

structure HeadCommit where
  timestamp : Option String
  message : Option String
deriving DecidableEq, Repr

structure PullRequestPayload where
  headRef : Option String
  baseRef : Option String
  labels : Option (List Label)
deriving DecidableEq, Repr

structure Context where
  eventName : String
  ref : String
  sha : String
  defaultBranch : Option String
  headCommit : Option HeadCommit
  pullRequest : Option PullRequestPayload
  payloadBaseRef : Option String
deriving DecidableEq, Repr

structure Args where
  majorVersion : Option Nat
deriving DecidableEq, Repr

structure CommitData where
  committerDate : Option String
  message : Option String
deriving DecidableEq, Repr

structure PullData where
  headRef : Option String
  labels : Option (List Label)
deriving DecidableEq, Repr

structure GitHub where
  latestRelease : Except JsError (Option String)
  commit : Except JsError (Option CommitData)
  pulls : Nat → Except JsError PullData

structure CommitInfo where
  timestamp : Option String
  message : Option String
deriving DecidableEq, Repr

/-- `getCommit`: propagates a request failure, throws
`Could not load commit data` when the response has no commit object. -/
def getCommit (gh : GitHub) (sha : String) : Except JsError CommitInfo :=
  match gh.commit with
  | .error e => .error e
  | .ok none => .error (.error ("Could not load commit data: " ++ sha))
  | .ok (some c) => .ok ⟨c.committerDate, c.message⟩

/-- `getLatestReleaseVersion`: a missing release, an unparsable tag or a
failed request all degrade to version `0.0.0` inside the `try`/`catch`. -/
def getLatestReleaseVersion (gh : GitHub) : SemVer :=
  match gh.latestRelease with
  | .error _ => SemVer.zero
  | .ok none => SemVer.zero
  | .ok (some tag) =>
    match SemVer.parse tag with
    | some v => v
    | none => SemVer.zero

/-- `timestampToUnix`: floor of the epoch-millisecond time divided by 1000.
On an invalid date the source throws
`new Error(:Invalid commit date: ${commitDate}:)` but the variable
`commitDate` is not in scope in that function, so evaluating the `throw`
raises `ReferenceError: commitDate is not defined`. -/
def timestampToUnix (timestamp : Option String) : Except JsError Int :=
  match timestamp with
  | none => .error (.referenceError "commitDate is not defined")
  | some ts =>
    match jsDateParse ts with
    | none => .error (.referenceError "commitDate is not defined")
    | some ms => .ok (Int.fdiv ms 1000)

/-- `alphaVersion`: default-branch and version-branch pushes get no
commit-hash suffix. -/
def alphaVersion (baseVersion : SemVer) (timestamp : Option String) : Except JsError String :=
  match timestampToUnix timestamp with
  | .error e => .error e
  | .ok u => .ok (baseVersion.versionStr ++ "-alpha." ++ intToString u)

/-- `localAlphaVersion`: all other scenarios carry `+shortHash`. -/
def localAlphaVersion (baseVersion : SemVer) (timestamp : Option String) (sha : String) :
    Except JsError String :=
  match timestampToUnix timestamp with
  | .error e => .error e
  | .ok u => .ok (baseVersion.versionStr ++ "-alpha." ++ intToString u ++ "+" ++ shortHash sha)

/-- `calculateTagVersion`: strip `refs/tags/`, parse, render `.version`. -/
def calculateTagVersion (ref : String) : Except JsError String :=
  match SemVer.new (jsReplaceFirst "refs/tags/" ref) with
  | .error e => .error e
  | .ok parsed => .ok parsed.versionStr

/-- `tryParseVersionBranch`: anchored `^v(\d+)$` on a possibly-undefined
branch name (falsy values short-circuit to `undefined`). -/
def tryParseVersionBranch (branchName : Option String) : Option Nat :=
  match branchName with
  | none => none
  | some b =>
    if b = "" then none
    else
      match b.toList with
      | c :: rest =>
        if c = 'v' ∧ rest ≠ [] ∧ rest.all Char.isDigit then some (parseDecDigits rest)
        else none
      | [] => none

/-- `isMajorUpgradeBranch`: `startsWith("upgrade-") && endsWith("-major")`. -/
def isMajorUpgradeBranch (branchName : Option String) : Bool :=
  match branchName with
  | none => false
  | some b => if b = "" then false else jsStartsWith b "upgrade-" && jsEndsWith b "-major"

/-- Scan for the first full match of `\(#(\d+)\)` and return the captured
number. -/
def scanPrNumber : List Char → Option Nat
  | [] => none
  | c :: rest =>
    (match c :: rest with
     | '(' :: '#' :: tail =>
       let ds := tail.takeWhile Char.isDigit
       if !ds.isEmpty && (tail.dropWhile Char.isDigit).head? = some ')' then
         some (parseDecDigits ds)
       else none
     | _ => none).orElse (fun _ => scanPrNumber rest)

/-- `tryParsePrNumber`: extract `(#N)` from a commit message. -/
def tryParsePrNumber (commitMessage : Option String) : Option Nat :=
  match commitMessage with
  | none => none
  | some m => if m = "" then none else scanPrNumber m.toList

/-- `getIncrementTypeFromLabels`: `needs-release/major`, then
`needs-release/minor`, then `needs-release/patch`; default `minor`. -/
def getIncrementTypeFromLabels (labels : Option (List Label)) : IncType :=
  let ls := labels.getD []
  if ls.any (fun l => l.name = "needs-release/major") then .major
  else if ls.any (fun l => l.name = "needs-release/minor") then .minor
  else if ls.any (fun l => l.name = "needs-release/patch") then .patch
  else .minor

/-- `getDefaultBranchNextVersion`: latest release plus the increment
derived from the PR named in the head-commit message, if any. -/
def getDefaultBranchNextVersion (gh : GitHub) (commitMessage : Option String) :
    Except JsError SemVer :=
  let previousRelease := getLatestReleaseVersion gh
  match tryParsePrNumber commitMessage with
  | none => .ok (previousRelease.inc .minor)
  | some prNumber =>
    match gh.pulls prNumber with
    | .error e => .error e
    | .ok pr =>
      match tryParseVersionBranch pr.headRef with
      | some prBranchVersion => SemVer.new (jsNumToString prBranchVersion ++ ".0.0")
      | none =>
        if isMajorUpgradeBranch pr.headRef then .ok (previousRelease.inc .major)
        else .ok (previousRelease.inc (getIncrementTypeFromLabels pr.labels))

/-- `ensureMajorVersion`: keep the version unless an override differs from
its major, in which case construct `{override}.0.0`. -/
def ensureMajorVersion (version : SemVer) (majorVersion : Option Nat) : Except JsError SemVer :=
  match majorVersion with
  | none => .ok version
  | some m =>
    if version.major = m then .ok version
    else SemVer.new (jsNumToString m ++ ".0.0")

/-- The head-commit timestamp and message: taken from the push payload
when both are present, otherwise fetched with `getCommit`. -/
def resolveHeadCommit (ctx : Context) (gh : GitHub) :
    Except JsError (Option String × Option String) :=
  let payloadTs := ctx.headCommit.bind (fun hc => hc.timestamp)
  let payloadMsg := ctx.headCommit.bind (fun hc => hc.message)
  if payloadTs.isNone ∨ payloadMsg.isNone then
    match getCommit gh ctx.sha with
    | .error e => .error e
    | .ok ci => .ok (ci.timestamp, ci.message)
  else .ok (payloadTs, payloadMsg)

/-- The `refs/heads/…` push / `workflow_dispatch` arm of `calculateVersion`. -/
def branchPushFlow (ctx : Context) (gh : GitHub) : Except JsError String :=
  match resolveHeadCommit ctx gh with
  | .error e => .error e
  | .ok (headCommitTimestamp, headCommitMessage) =>
    let branchName := jsReplaceFirst "refs/heads/" ctx.ref
    match tryParseVersionBranch (some branchName) with
    | some asVersion =>
      (match SemVer.new (jsNumToString asVersion ++ ".0.0") with
       | .error e => .error e
       | .ok baseVersion => alphaVersion baseVersion headCommitTimestamp)
    | none =>
      if ctx.defaultBranch = some branchName then
        match getDefaultBranchNextVersion gh headCommitMessage with
        | .error e => .error e
        | .ok nextVersion => alphaVersion nextVersion headCommitTimestamp
      else
        localAlphaVersion ((getLatestReleaseVersion gh).inc .minor) headCommitTimestamp ctx.sha

/-- The `pull_request` arm of `calculateVersion`.  Note that the source
reads `payload.pull_request.head.ref` here. -/
def pullRequestFlow (ctx : Context) (gh : GitHub) : Except JsError String :=
  let headRef := ctx.pullRequest.bind (fun pr => pr.headRef)
  let prLabels := ctx.pullRequest.bind (fun pr => pr.labels)
  let nextVersionE : Except JsError SemVer :=
    match tryParseVersionBranch headRef with
    | some asVersion => SemVer.new (jsNumToString asVersion ++ ".0.0")
    | none =>
      let previousRelease := getLatestReleaseVersion gh
      if isMajorUpgradeBranch headRef then .ok (previousRelease.inc .major)
      else .ok (previousRelease.inc (getIncrementTypeFromLabels prLabels))
  match nextVersionE with
  | .error e => .error e
  | .ok nextVersion =>
    match getCommit gh ctx.sha with
    | .error e => .error e
    | .ok ci => localAlphaVersion nextVersion ci.timestamp (shortHash ctx.sha)

/-- The `schedule` / `repository_dispatch` arm of `calculateVersion`. -/
def scheduleFlow (ctx : Context) (args : Args) (gh : GitHub) : Except JsError String :=
  let nextVersion := (getLatestReleaseVersion gh).inc .minor
  match ensureMajorVersion nextVersion args.majorVersion with
  | .error e => .error e
  | .ok nv =>
    match getCommit gh ctx.sha with
    | .error e => .error e
    | .ok ci => localAlphaVersion nv ci.timestamp (shortHash ctx.sha)

/-- The exported `calculateVersion(context, args)` of the current variant. -/
def calculateVersion (ctx : Context) (args : Args) (gh : GitHub) : Except JsError String :=
  if ctx.eventName = "push" ∧ jsStartsWith ctx.ref "refs/tags/" then
    calculateTagVersion ctx.ref
  else if (ctx.eventName = "push" ∨ ctx.eventName = "workflow_dispatch")
      ∧ jsStartsWith ctx.ref "refs/heads/" then
    branchPushFlow ctx gh
  else if ctx.eventName = "pull_request" then
    pullRequestFlow ctx gh
  else if ctx.eventName = "schedule" ∨ ctx.eventName = "repository_dispatch" then
    scheduleFlow ctx args gh
  else .error (.error ("Unsupported event: " ++ ctx.eventName))

/-- Scan for the first full match of the unanchored pattern
`refs\/heads\/v(\d+)` and return the captured digit run. -/
def scanHeadsV : List Char → Option (List Char)
  | [] => none
  | c :: rest =>
    match stripPfx ("refs/heads/v".toList) (c :: rest) with
    | some after =>
      let ds := after.takeWhile Char.isDigit
      if ds.isEmpty then scanHeadsV rest else some ds
    | none => scanHeadsV rest

/-- The exported `findVersionBranch(context)` of the earlier variant of
`version.js`: an unanchored `match(/refs\/heads\/v(\d+)/)` on the push
ref, or on `payload.base?.ref` for pull requests. -/
def findVersionBranch (ctx : Context) : Option Nat :=
  let found : Option (List Char) :=
    if ctx.eventName = "push" then scanHeadsV ctx.ref.toList
    else if ctx.eventName = "pull_request" then
      match ctx.payloadBaseRef with
      | none => none
      | some r => scanHeadsV r.toList
    else none
  found.map parseDecDigits

/-- A degraded latest-release lookup: the request threw, the response
carried no `tag_name`, or the tag fails semver parsing. -/
def degradedLookup : Except JsError (Option String) → Bool
  | .error _ => true
  | .ok none => true
  | .ok (some t) => (SemVer.parse t).isNone

/-- The spec's label-to-increment table, in priority order. -/
def labelPriority : List (String × IncType) :=
  [("needs-release/major", IncType.major), ("needs-release/minor", IncType.minor),
    ("needs-release/patch", IncType.patch)]

/-- The label mapping as the spec words it: walk the priority table, first
match wins, absence of any needs-release label defaults to minor. -/
def incrementFromLabelsSpec (labels : Option (List Label)) : IncType :=
  match labelPriority.find? (fun p => (labels.getD []).any (fun l => l.name = p.1)) with
  | some p => p.2
  | none => .minor

/-- Hexadecimal characters as they appear in a git sha. -/
def isHexChar (c : Char) : Bool := c.isDigit || ('a' ≤ c && c ≤ 'f')

/-! ## Concrete fixtures

The contexts and injected responses below mirror the repository's test
suite (`version.test.js`). -/

/-- The 40-hex commit sha used throughout the repository's tests. -/
def testSha : String := "699a10d86efd595503aa8c3ecfff753a7ed3cbd4"

/-- A commit whose committer date is `2020-01-01T00:00:00Z`. -/
def testCommit : Except JsError (Option CommitData) :=
  .ok (some ⟨some "2020-01-01T00:00:00Z", some "Commit message"⟩)

/-- A pulls endpoint on which every request fails. -/
def pullsNone : Nat → Except JsError PullData := fun _ => .error (.error "Not Found")

/-- Inert responses: no release data, no commit data. -/
def ghEmpty : GitHub := ⟨.ok none, .ok none, pullsNone⟩

/-- Latest release `t`, the test commit, failing pulls. -/
def ghLatest (t : String) : GitHub := ⟨.ok (some t), testCommit, pullsNone⟩

/-- The latest-release request throws. -/
def ghDegraded : GitHub := ⟨.error (.error "HttpError: 404"), testCommit, pullsNone⟩

/-- Latest release `v1.0.0`; pull request 4 carries `needs-release/major`. -/
def ghMajorLabelPR : GitHub :=
  ⟨.ok (some "v1.0.0"), testCommit,
    fun n => if n = 4 then .ok ⟨none, some [⟨"needs-release/major"⟩]⟩
             else .error (.error "Not Found")⟩

/-- A push of the default branch `master`. -/
def ctxMainPush : Context :=
  ⟨"push", "refs/heads/master", testSha, some "master",
    some ⟨some "2020-01-01T00:00:00Z", some "Commit message"⟩, none, none⟩

/-- A push of the default branch whose head commit message cites PR 4. -/
def ctxMainPushPR4 : Context :=
  ⟨"push", "refs/heads/master", testSha, some "master",
    some ⟨some "2020-01-01T00:00:00Z", some "Commit message (#4)"⟩, none, none⟩

/-- A push of the non-default branch `feature-x`. -/
def ctxFeaturePush : Context :=
  ⟨"push", "refs/heads/feature-x", testSha, some "master",
    some ⟨some "2020-01-01T00:00:00Z", some "Commit message"⟩, none, none⟩

/-- A push of the version branch `v2` (not the default branch). -/
def ctxVersionBranchPush : Context :=
  ⟨"push", "refs/heads/v2", testSha, some "master",
    some ⟨some "2020-01-01T00:00:00Z", some "Commit message"⟩, none, none⟩

/-- A pull request into `main` carrying the given labels. -/
def ctxPRWithLabels (ls : List Label) : Context :=
  ⟨"pull_request", "refs/pull/4/merge", testSha, some "main", none,
    some ⟨none, some "main", some ls⟩, none⟩

/-- The repository's own test `pull_request / to version branch`: the PR's
base ref is `v21` and no head ref is present in the payload. -/
def ctxPRBaseV21 : Context :=
  ⟨"pull_request", "refs/pull/4/merge", testSha, some "main", none,
    some ⟨none, some "v21", none⟩, none⟩

/-- A scheduled build. -/
def ctxSchedule : Context := ⟨"schedule", "refs/heads/master", testSha, none, none, none, none⟩

/-- A push of a tag with build metadata. -/
def ctxTagBuildMeta : Context :=
  ⟨"push", "refs/tags/v1.2.3+build", "", none, none, none, none⟩

/-- A push of a pre-release tag. -/
def ctxTagRC : Context := ⟨"push", "refs/tags/v1.2.3-rc.1", "", none, none, none, none⟩

/-- An event name outside the supported set. -/
def ctxOtherEvent : Context := ⟨"deployment", "refs/heads/main", "", none, none, none, none⟩

/-- A push of a branch named `v1-rc`. -/
def ctxV1RC : Context := ⟨"push", "refs/heads/v1-rc", "", none, none, none, none⟩

/-! ## Helper lemmas: decimal digits -/

theorem natToDecRev_zero (fuel : Nat) : natToDecRev fuel 0 = [] := by
  cases fuel <;> simp [natToDecRev]

theorem charOfNat_digit_isDigit {d : Nat} (h : d < 10) :
    (Char.ofNat (48 + d)).isDigit = true := by
  interval_cases d <;> decide

theorem digitVal_charOfNat {d : Nat} (h : d < 10) : digitVal (Char.ofNat (48 + d)) = d := by
  interval_cases d <;> decide

theorem charOfNat_digit_ne_zero {d : Nat} (h1 : 1 ≤ d) (h : d < 10) :
    Char.ofNat (48 + d) ≠ '0' := by
  interval_cases d <;> decide

theorem charOfNat_digit_not_ws {d : Nat} (h : d < 10) :
    (Char.ofNat (48 + d)).isWhitespace = false := by
  interval_cases d <;> decide

theorem natToDecRev_all_digits (fuel n : Nat) :
    (natToDecRev fuel n).all Char.isDigit = true := by
  induction fuel generalizing n with
  | zero => simp [natToDecRev]
  | succ fuel ih =>
    by_cases h : n = 0
    · simp [natToDecRev, h]
    · simp only [natToDecRev, if_neg h, List.all_cons, Bool.and_eq_true]
      exact ⟨charOfNat_digit_isDigit (Nat.mod_lt _ (by omega)), ih _⟩

theorem parseDecDigits_reverse (cs : List Char) : parseDecDigits cs.reverse = valLE cs := by
  simp [parseDecDigits, valLE, List.foldl_reverse]

theorem valLE_natToDecRev (fuel n : Nat) (h : n ≤ fuel) : valLE (natToDecRev fuel n) = n := by
  induction fuel generalizing n with
  | zero => interval_cases n; simp [natToDecRev, valLE]
  | succ fuel ih =>
    by_cases h0 : n = 0
    · simp [natToDecRev, h0, valLE]
    · have hdiv : n / 10 ≤ fuel := by omega
      simp only [natToDecRev, if_neg h0, valLE, List.foldr_cons]
      have := ih (n / 10) hdiv
      simp only [valLE] at this
      rw [this, digitVal_charOfNat (Nat.mod_lt _ (by omega))]
      omega

theorem natToDecRev_ne_nil (fuel n : Nat) (h1 : 1 ≤ n) (h : n ≤ fuel) :
    natToDecRev fuel n ≠ [] := by
  cases fuel with
  | zero => omega
  | succ fuel =>
    have h0 : n ≠ 0 := by omega
    simp [natToDecRev, h0]

theorem natToDecRev_getLast?_ne_zero (fuel n : Nat) (h1 : 1 ≤ n) (h : n ≤ fuel) :
    ∀ c, (natToDecRev fuel n).getLast? = some c → c ≠ '0' := by
  induction fuel generalizing n with
  | zero => omega
  | succ fuel ih =>
    intro c hc
    have h0 : n ≠ 0 := by omega
    simp only [natToDecRev, if_neg h0] at hc
    by_cases hq : n / 10 = 0
    · rw [hq, natToDecRev_zero, List.getLast?_singleton] at hc
      have hn10 : n < 10 := by omega
      have : n % 10 = n := Nat.mod_eq_of_lt hn10
      rw [this] at hc
      cases hc
      exact charOfNat_digit_ne_zero h1 hn10
    · have hq1 : 1 ≤ n / 10 := by omega
      have hqf : n / 10 ≤ fuel := by
        have : n / 10 < n := Nat.div_lt_self (by omega) (by omega)
        omega
      obtain ⟨d, ds, hds⟩ : ∃ d ds, natToDecRev fuel (n / 10) = d :: ds := by
        cases hnn : natToDecRev fuel (n / 10) with
        | nil => exact absurd hnn (natToDecRev_ne_nil fuel (n / 10) hq1 hqf)
        | cons d ds => exact ⟨d, ds, rfl⟩
      rw [hds, List.getLast?_cons_cons] at hc
      exact ih (n / 10) hq1 hqf c (by rw [hds]; exact hc)

theorem natToDecRev_length (fuel k n : Nat) (h : n < 10 ^ k) :
    (natToDecRev fuel n).length ≤ k := by
  induction fuel generalizing k n with
  | zero => simp [natToDecRev]
  | succ fuel ih =>
    by_cases h0 : n = 0
    · simp [natToDecRev, h0]
    · have hk : k ≠ 0 := by
        intro hk0
        rw [hk0, pow_zero] at h
        omega
      obtain ⟨k', rfl⟩ : ∃ k', k = k' + 1 := ⟨k - 1, by omega⟩
      have hdiv : n / 10 < 10 ^ k' := by
        rw [Nat.div_lt_iff_lt_mul (by omega)]
        calc n < 10 ^ (k' + 1) := h
        _ = 10 ^ k' * 10 := by ring
      simp only [natToDecRev, if_neg h0, List.length_cons]
      have := ih k' (n / 10) hdiv
      omega

theorem decDigitsOf_all_digits (n : Nat) : (decDigitsOf n).all Char.isDigit = true := by
  by_cases h : n = 0
  · simp [decDigitsOf, h]
  · simp only [decDigitsOf, if_neg h, List.all_reverse]
    exact natToDecRev_all_digits _ _

theorem decDigitsOf_ne_nil (n : Nat) : decDigitsOf n ≠ [] := by
  by_cases h : n = 0
  · simp [decDigitsOf, h]
  · simp only [decDigitsOf, if_neg h]
    intro hrev
    exact natToDecRev_ne_nil (n + 1) n (by omega) (by omega) (by simpa using hrev)

theorem parseDecDigits_decDigitsOf (n : Nat) : parseDecDigits (decDigitsOf n) = n := by
  by_cases h : n = 0
  · simp [decDigitsOf, h, parseDecDigits, digitVal]
  · simp only [decDigitsOf, if_neg h]
    rw [parseDecDigits_reverse]
    exact valLE_natToDecRev (n + 1) n (by omega)

theorem decDigitsOf_noLeadingZero (n : Nat) : noLeadingZero (decDigitsOf n) = true := by
  by_cases h : n = 0
  · simp [decDigitsOf, h, noLeadingZero]
  · simp only [decDigitsOf, if_neg h]
    have hlast := natToDecRev_getLast?_ne_zero (n + 1) n (by omega) (by omega)
    cases hrev : (natToDecRev (n + 1) n).reverse with
    | nil => simp [noLeadingZero]
    | cons c rest =>
      have hc : c ≠ '0' := by
        apply hlast
        rw [← List.head?_reverse, hrev]
        rfl
      cases rest with
      | nil => simp [noLeadingZero]
      | cons c' rest' =>
        simp [noLeadingZero, bne_iff_ne, hc]

theorem decDigitsOf_length_le (n k : Nat) (hk : 1 ≤ k) (h : n < 10 ^ k) :
    (decDigitsOf n).length ≤ k := by
  by_cases h0 : n = 0
  · simp [decDigitsOf, h0]; omega
  · simp only [decDigitsOf, if_neg h0, List.length_reverse]
    exact natToDecRev_length _ _ _ h

/-! ## Helper lemmas: splitting, trimming, and the numeric round trip -/

theorem breakAtFirst_no_sep (sep : Char) (cs : List Char) (h : ∀ c ∈ cs, c ≠ sep) :
    breakAtFirst sep cs = (cs, none) := by
  induction cs with
  | nil => rfl
  | cons c rest ih =>
    have hc : c ≠ sep := h c (by simp)
    simp only [breakAtFirst, if_neg hc]
    rw [ih (fun x hx => h x (by simp [hx]))]

theorem splitOnChar_ne_nil (sep : Char) (cs : List Char) : splitOnChar sep cs ≠ [] := by
  cases cs with
  | nil => simp [splitOnChar]
  | cons c rest =>
    simp only [splitOnChar]
    cases h : splitOnChar sep rest with
    | nil => simp
    | cons g gs =>
      by_cases hc : c = sep <;> simp [hc]

theorem splitOnChar_no_sep (sep : Char) (cs : List Char) (h : ∀ c ∈ cs, c ≠ sep) :
    splitOnChar sep cs = [cs] := by
  induction cs with
  | nil => rfl
  | cons c rest ih =>
    have hc : c ≠ sep := h c (by simp)
    simp only [splitOnChar]
    rw [ih (fun x hx => h x (by simp [hx]))]
    simp [hc]

theorem splitOnChar_append (sep : Char) (ds rest : List Char) (h : ∀ c ∈ ds, c ≠ sep) :
    splitOnChar sep (ds ++ sep :: rest) = ds :: splitOnChar sep rest := by
  induction ds with
  | nil =>
    simp only [List.nil_append, splitOnChar]
    cases hr : splitOnChar sep rest with
    | nil => exact absurd hr (splitOnChar_ne_nil sep rest)
    | cons g gs => simp
  | cons d ds' ih =>
    have hd : d ≠ sep := h d (by simp)
    simp only [List.cons_append, splitOnChar, List.append_eq]
    rw [ih (fun x hx => h x (by simp [hx]))]
    simp [hd]

theorem dropWhile_eq_self_of_all {p : Char → Bool} {l : List Char}
    (h : ∀ c ∈ l, p c = false) : l.dropWhile p = l := by
  cases l with
  | nil => rfl
  | cons c rest => simp [List.dropWhile_cons, h c (by simp)]

theorem trimList_of_no_ws (cs : List Char) (h : ∀ c ∈ cs, c.isWhitespace = false) :
    trimList cs = cs := by
  unfold trimList
  rw [dropWhile_eq_self_of_all h,
    dropWhile_eq_self_of_all (fun c hc => h c (List.mem_reverse.mp hc)), List.reverse_reverse]

theorem natToDecRev_all_not_ws (fuel n : Nat) :
    ∀ c ∈ natToDecRev fuel n, c.isWhitespace = false := by
  induction fuel generalizing n with
  | zero => simp [natToDecRev]
  | succ fuel ih =>
    by_cases h : n = 0
    · simp [natToDecRev, h]
    · intro c hc
      simp only [natToDecRev, if_neg h, List.mem_cons] at hc
      rcases hc with rfl | hc
      · exact charOfNat_digit_not_ws (Nat.mod_lt _ (by omega))
      · exact ih _ c hc

theorem decDigitsOf_all_not_ws (n : Nat) : ∀ c ∈ decDigitsOf n, c.isWhitespace = false := by
  by_cases h : n = 0
  · intro c hc
    simp [decDigitsOf, h] at hc
    subst hc
    decide
  · intro c hc
    simp only [decDigitsOf, if_neg h, List.mem_reverse] at hc
    exact natToDecRev_all_not_ws _ _ c hc

theorem isDigit_ne {c : Char} (h : c.isDigit = true) (d : Char) (hd : d.isDigit = false) :
    c ≠ d := by
  intro hc
  subst hc
  rw [h] at hd
  cases hd

/-- Character-level content of the string `{m}.0.0` built by the source's
template interpolation. -/
theorem numStr_toList (m : Nat) :
    (jsNumToString m ++ ".0.0").toList = decDigitsOf m ++ ['.', '0', '.', '0'] := rfl

theorem numStr_length (m : Nat) :
    (jsNumToString m ++ ".0.0").length = (decDigitsOf m).length + 4 := by
  show (decDigitsOf m ++ ['.', '0', '.', '0']).length = (decDigitsOf m).length + 4
  simp

/-- The numeric round trip: `new SemVer(:${m}.0.0:)` yields exactly
`m.0.0` when `m` respects the `MAX_SAFE_INTEGER` bound of the library, and
throws otherwise. -/
theorem parse_numStr (m : Nat) :
    SemVer.parse (jsNumToString m ++ ".0.0") =
      if m ≤ maxSafeInteger then some ⟨m, 0, 0, [], []⟩ else none := by
  have hdig := decDigitsOf_all_digits m
  have hdigAll : ∀ c ∈ decDigitsOf m, c.isDigit = true := by
    intro c hc
    exact List.all_eq_true.mp hdig c hc
  have hall : ∀ c ∈ decDigitsOf m ++ ['.', '0', '.', '0'], c.isWhitespace = false := by
    intro c hc
    rcases List.mem_append.mp hc with h | h
    · exact decDigitsOf_all_not_ws m c h
    · fin_cases h <;> decide
  have hcore : semverParseList (decDigitsOf m ++ ['.', '0', '.', '0']) =
      if m ≤ maxSafeInteger then some ⟨m, 0, 0, [], []⟩ else none := by
    have hplus : breakAtFirst '+' (decDigitsOf m ++ ['.', '0', '.', '0']) =
        (decDigitsOf m ++ ['.', '0', '.', '0'], none) := by
      apply breakAtFirst_no_sep
      intro c hc
      rcases List.mem_append.mp hc with h | h
      · exact isDigit_ne (hdigAll c h) '+' (by decide)
      · fin_cases h <;> decide
    have hminus : breakAtFirst '-' (decDigitsOf m ++ ['.', '0', '.', '0']) =
        (decDigitsOf m ++ ['.', '0', '.', '0'], none) := by
      apply breakAtFirst_no_sep
      intro c hc
      rcases List.mem_append.mp hc with h | h
      · exact isDigit_ne (hdigAll c h) '-' (by decide)
      · fin_cases h <;> decide
    have hsplit : splitOnChar '.' (decDigitsOf m ++ ['.', '0', '.', '0']) =
        [decDigitsOf m, ['0'], ['0']] := by
      have : splitOnChar '.' (decDigitsOf m ++ '.' :: ['0', '.', '0']) =
          decDigitsOf m :: splitOnChar '.' ['0', '.', '0'] := by
        apply splitOnChar_append
        intro c hc
        exact isDigit_ne (hdigAll c hc) '.' (by decide)
      simpa using this
    have hnum : numericIdentVal? (decDigitsOf m) = some m := by
      unfold numericIdentVal?
      rw [if_pos]
      · rw [parseDecDigits_decDigitsOf]
      · simp [decDigitsOf_ne_nil m, hdig, decDigitsOf_noLeadingZero m,
          List.isEmpty_iff]
    have hmmp : parseMMP (decDigitsOf m ++ ['.', '0', '.', '0']) =
        if m ≤ maxSafeInteger then some (m, 0, 0) else none := by
      unfold parseMMP
      rw [hsplit]
      have h0 : numericIdentVal? ['0'] = some 0 := by decide
      simp only [hnum, h0, Option.some_bind]
      by_cases hm : m ≤ maxSafeInteger
      · rw [if_pos ⟨hm, by decide, by decide⟩, if_pos hm]
      · rw [if_neg (by simp [hm]), if_neg hm]
    unfold semverParseList
    simp only [hplus, hminus, hmmp]
    by_cases hm : m ≤ maxSafeInteger
    · rw [if_pos hm, if_pos hm]
      simp
    · rw [if_neg hm, if_neg hm]
  unfold SemVer.parse
  by_cases hlen : (jsNumToString m ++ ".0.0").length > 256
  · rw [if_pos hlen]
    have hm : ¬ m ≤ maxSafeInteger := by
      intro hm
      have h16 : m < 10 ^ 16 := by
        have : maxSafeInteger < 10 ^ 16 := by decide
        omega
      have := decDigitsOf_length_le m 16 (by omega) h16
      rw [numStr_length] at hlen
      omega
    rw [if_neg hm]
  · rw [if_neg hlen]
    show (let cs := trimList (decDigitsOf m ++ ['.', '0', '.', '0'])
          let cs := if cs.head? = some 'v' then cs.tail else cs
          semverParseList cs) = _
    rw [trimList_of_no_ws _ hall]
    have hv : (decDigitsOf m ++ ['.', '0', '.', '0']).head? ≠ some 'v' := by
      cases hd : decDigitsOf m with
      | nil => exact absurd hd (decDigitsOf_ne_nil m)
      | cons c rest =>
        rw [List.cons_append, List.head?_cons]
        intro hsome
        have hc : c = 'v' := by injection hsome
        have : c.isDigit = true := hdigAll c (by simp [hd])
        exact isDigit_ne this 'v' (by decide) hc
    simp only [if_neg hv]
    exact hcore

/-- `new SemVer(:${m}.0.0:)` as an `Except`. -/
theorem semverNew_numStr (m : Nat) :
    SemVer.new (jsNumToString m ++ ".0.0") =
      if m ≤ maxSafeInteger then .ok ⟨m, 0, 0, [], []⟩
      else .error (.typeError ("Invalid Version: " ++ (jsNumToString m ++ ".0.0"))) := by
  unfold SemVer.new
  rw [parse_numStr]
  by_cases hm : m ≤ maxSafeInteger <;> simp [hm]

/-! ## Helper lemmas: bounds and success status -/

theorem parseMMP_bound {nums : List Char} {m n p : Nat}
    (h : parseMMP nums = some (m, n, p)) :
    m ≤ maxSafeInteger ∧ n ≤ maxSafeInteger ∧ p ≤ maxSafeInteger := by
  unfold parseMMP at h
  split at h
  · rename_i ma mi pa heq
    cases hma : numericIdentVal? ma with
    | none => rw [hma] at h; simp at h
    | some a =>
      rw [hma] at h
      cases hmi : numericIdentVal? mi with
      | none => rw [hmi] at h; simp at h
      | some b =>
        rw [hmi] at h
        cases hpa : numericIdentVal? pa with
        | none => rw [hpa] at h; simp at h
        | some c =>
          rw [hpa] at h
          simp only [Option.some_bind] at h
          by_cases hcond : a ≤ maxSafeInteger ∧ b ≤ maxSafeInteger ∧ c ≤ maxSafeInteger
          · rw [if_pos hcond] at h
            injection h with h'
            rw [Prod.mk.injEq, Prod.mk.injEq] at h'
            obtain ⟨rfl, rfl, rfl⟩ := h'
            exact hcond
          · rw [if_neg hcond] at h
            cases h
  · cases h

theorem semverParseList_major_le {cs : List Char} {v : SemVer}
    (h : semverParseList cs = some v) : v.major ≤ maxSafeInteger := by
  simp only [semverParseList] at h
  split at h
  · cases h
  · rename_i m n p heq
    split at h
    · injection h with h'
      subst h'
      exact (parseMMP_bound heq).1
    · cases h

theorem parse_major_le {s : String} {v : SemVer} (h : SemVer.parse s = some v) :
    v.major ≤ maxSafeInteger := by
  simp only [SemVer.parse] at h
  split at h
  · cases h
  · exact semverParseList_major_le h

theorem glrv_major_le (gh : GitHub) : (getLatestReleaseVersion gh).major ≤ maxSafeInteger := by
  unfold getLatestReleaseVersion
  split
  · decide
  · decide
  · split
    · rename_i v hv
      exact parse_major_le hv
    · decide

theorem inc_minor_major (v : SemVer) : (v.inc .minor).major = v.major := by
  simp only [SemVer.inc]
  split <;> rfl

theorem alphaVersion_isOk (v : SemVer) (ts : Option String) :
    isOkB (alphaVersion v ts) = isOkB (timestampToUnix ts) := by
  unfold alphaVersion
  cases h : timestampToUnix ts <;> simp [h, isOkB]

theorem localAlphaVersion_isOk (v : SemVer) (ts : Option String) (sha : String) :
    isOkB (localAlphaVersion v ts sha) = isOkB (timestampToUnix ts) := by
  unfold localAlphaVersion
  cases h : timestampToUnix ts <;> simp [h, isOkB]

theorem semverNew_numStr_isOk (m : Nat) :
    isOkB (SemVer.new (jsNumToString m ++ ".0.0")) = decide (m ≤ maxSafeInteger) := by
  rw [semverNew_numStr]
  by_cases hm : m ≤ maxSafeInteger <;> simp [hm, isOkB]

theorem ensureMajorVersion_isOk {v w : SemVer} (hv : v.major ≤ maxSafeInteger)
    (hw : w.major ≤ maxSafeInteger) (m : Option Nat) :
    isOkB (ensureMajorVersion v m) = isOkB (ensureMajorVersion w m) := by
  cases m with
  | none => rfl
  | some k =>
    simp only [ensureMajorVersion]
    by_cases h1 : v.major = k <;> by_cases h2 : w.major = k
    · rw [if_pos h1, if_pos h2]
      rfl
    · rw [if_pos h1, if_neg h2, semverNew_numStr, if_pos (h1 ▸ hv)]
      rfl
    · rw [if_neg h1, if_pos h2, semverNew_numStr, if_pos (h2 ▸ hw)]
      rfl
    · rw [if_neg h1, if_neg h2]

theorem getCommit_congr {gh₁ gh₂ : GitHub} (h : gh₁.commit = gh₂.commit) (sha : String) :
    getCommit gh₁ sha = getCommit gh₂ sha := by
  unfold getCommit
  rw [h]

theorem resolveHeadCommit_congr {gh₁ gh₂ : GitHub} (hc : gh₁.commit = gh₂.commit)
    (ctx : Context) : resolveHeadCommit ctx gh₁ = resolveHeadCommit ctx gh₂ := by
  simp only [resolveHeadCommit]
  rw [getCommit_congr hc]

theorem gDBNV_isOk {gh₁ gh₂ : GitHub} (hp : gh₁.pulls = gh₂.pulls) (msg : Option String) :
    isOkB (getDefaultBranchNextVersion gh₁ msg) =
      isOkB (getDefaultBranchNextVersion gh₂ msg) := by
  simp only [getDefaultBranchNextVersion, hp]
  cases tryParsePrNumber msg with
  | none => rfl
  | some n =>
    dsimp only
    cases gh₂.pulls n with
    | error e => rfl
    | ok pr =>
      dsimp only
      cases tryParseVersionBranch pr.headRef with
      | some bv => rfl
      | none =>
        dsimp only
        by_cases hup : isMajorUpgradeBranch pr.headRef = true <;> simp [hup, isOkB]

theorem branchPushFlow_isOk {ctx : Context} {gh₁ gh₂ : GitHub}
    (hc : gh₁.commit = gh₂.commit) (hp : gh₁.pulls = gh₂.pulls) :
    isOkB (branchPushFlow ctx gh₁) = isOkB (branchPushFlow ctx gh₂) := by
  simp only [branchPushFlow, resolveHeadCommit_congr hc]
  cases resolveHeadCommit ctx gh₂ with
  | error e => rfl
  | ok tm =>
    obtain ⟨ts, msg⟩ := tm
    dsimp only
    cases tryParseVersionBranch (some (jsReplaceFirst "refs/heads/" ctx.ref)) with
    | some av => rfl
    | none =>
      dsimp only
      by_cases hdb : ctx.defaultBranch = some (jsReplaceFirst "refs/heads/" ctx.ref)
      · simp only [if_pos hdb]
        have hok := gDBNV_isOk hp msg
        cases h₁ : getDefaultBranchNextVersion gh₁ msg with
        | error e₁ =>
          cases h₂ : getDefaultBranchNextVersion gh₂ msg with
          | error e₂ => rfl
          | ok v₂ =>
            rw [h₁, h₂] at hok
            simp [isOkB] at hok
        | ok v₁ =>
          cases h₂ : getDefaultBranchNextVersion gh₂ msg with
          | error e₂ =>
            rw [h₁, h₂] at hok
            simp [isOkB] at hok
          | ok v₂ =>
            dsimp only
            rw [alphaVersion_isOk, alphaVersion_isOk]
      · simp only [if_neg hdb]
        rw [localAlphaVersion_isOk, localAlphaVersion_isOk]

theorem pullRequestFlow_isOk {ctx : Context} {gh₁ gh₂ : GitHub}
    (hc : gh₁.commit = gh₂.commit) :
    isOkB (pullRequestFlow ctx gh₁) = isOkB (pullRequestFlow ctx gh₂) := by
  simp only [pullRequestFlow, getCommit_congr hc]
  cases tryParseVersionBranch (ctx.pullRequest.bind fun pr => pr.headRef) with
  | some av => rfl
  | none =>
    dsimp only
    by_cases hup : isMajorUpgradeBranch (ctx.pullRequest.bind fun pr => pr.headRef) = true <;>
      [simp only [if_pos hup]; simp only [if_neg hup]] <;>
      cases getCommit gh₂ ctx.sha <;>
      first
        | rfl
        | (dsimp only
           rw [localAlphaVersion_isOk, localAlphaVersion_isOk])

theorem scheduleFlow_isOk {ctx : Context} {args : Args} {gh₁ gh₂ : GitHub}
    (hc : gh₁.commit = gh₂.commit) :
    isOkB (scheduleFlow ctx args gh₁) = isOkB (scheduleFlow ctx args gh₂) := by
  have hb₁ : ((getLatestReleaseVersion gh₁).inc .minor).major ≤ maxSafeInteger := by
    rw [inc_minor_major]
    exact glrv_major_le gh₁
  have hb₂ : ((getLatestReleaseVersion gh₂).inc .minor).major ≤ maxSafeInteger := by
    rw [inc_minor_major]
    exact glrv_major_le gh₂
  have hok := ensureMajorVersion_isOk hb₁ hb₂ args.majorVersion
  simp only [scheduleFlow]
  cases h₁ : ensureMajorVersion ((getLatestReleaseVersion gh₁).inc .minor) args.majorVersion with
  | error e₁ =>
    cases h₂ : ensureMajorVersion ((getLatestReleaseVersion gh₂).inc .minor) args.majorVersion with
    | error e₂ => rfl
    | ok v₂ =>
      rw [h₁, h₂] at hok
      simp [isOkB] at hok
  | ok v₁ =>
    cases h₂ : ensureMajorVersion ((getLatestReleaseVersion gh₂).inc .minor) args.majorVersion with
    | error e₂ =>
      rw [h₁, h₂] at hok
      simp [isOkB] at hok
    | ok v₂ =>
      dsimp only
      rw [getCommit_congr hc]
      cases getCommit gh₂ ctx.sha with
      | error e => rfl
      | ok ci =>
        dsimp only
        rw [localAlphaVersion_isOk, localAlphaVersion_isOk]


/-! ## Helper lemmas: refs and hashes -/

theorem startsWith_heads (bn : String) :
    jsStartsWith ("refs/heads/" ++ bn) "refs/heads/" = true := rfl

theorem not_startsWith_tags (bn : String) :
    jsStartsWith ("refs/heads/" ++ bn) "refs/tags/" = false := rfl

theorem replaceFirst_heads (bn : String) :
    jsReplaceFirst "refs/heads/" ("refs/heads/" ++ bn) = bn := rfl

theorem shortHash_idem (s : String) : shortHash (shortHash s) = shortHash s := by
  simp [shortHash, List.take_take]

/-! ## Evaluation checks

The semver and date models on concrete inputs, and `calculateVersion` on
the inputs of the repository's test suite. -/

example : SemVer.parse "v1.2.1" = some ⟨1, 2, 1, [], []⟩ := by decide
example : SemVer.parse "1.2.3-rc.1+build.5" = some ⟨1, 2, 3, ["rc", "1"], ["build", "5"]⟩ := by
  decide
example : SemVer.parse "v1.foo" = none := by decide
example : SemVer.parse "1.02.3" = none := by decide
example : (SemVer.parse "v1.2.3+build").map SemVer.versionStr = some "1.2.3" := by decide
example : SemVer.versionStr ⟨1, 2, 3, ["rc", "1"], ["b"]⟩ = "1.2.3-rc.1" := by decide
example : SemVer.inc ⟨1, 0, 0, [], []⟩ .major = ⟨2, 0, 0, [], []⟩ := by decide
example : SemVer.inc ⟨1, 2, 1, [], []⟩ .minor = ⟨1, 3, 0, [], []⟩ := by decide
example : SemVer.inc ⟨1, 2, 1, [], []⟩ .patch = ⟨1, 2, 2, [], []⟩ := by decide

example : jsDateParse "2020-01-01T00:00:00Z" = some 1577836800000 := by decide
example : jsDateParse "2020-01-01" = some 1577836800000 := by decide
example : jsDateParse "2020-02-29T12:30:15.250Z" = some 1582979415250 := by decide
example : jsDateParse "2019-02-29T00:00:00Z" = none := by decide
example : jsDateParse "not-a-date" = none := by decide
example : jsDateParse "1969-12-31T23:59:59.500Z" = some (-500) := by decide
example : jsDateParse "2020-01-01T02:00:00+02:00" = some 1577836800000 := by decide

example :
    calculateVersion ⟨"push", "refs/tags/v1.0.0", "", none, none, none, none⟩ ⟨none⟩
      ⟨.error (.error "x"), .error (.error "x"), pullsNone⟩ = .ok "1.0.0" := by decide

example :
    calculateVersion ⟨"push", "refs/tags/v1.foo", "", none, none, none, none⟩ ⟨none⟩
      ⟨.error (.error "x"), .error (.error "x"), pullsNone⟩ =
      .error (.typeError "Invalid Version: v1.foo") := by decide

example :
    calculateVersion
      ⟨"push", "refs/heads/master", testSha, some "master",
        some ⟨some "2020-01-01T00:00:00Z", some "Commit message"⟩, none, none⟩ ⟨none⟩
      ⟨.ok (some "v1.0.0"), testCommit, pullsNone⟩ = .ok "1.1.0-alpha.1577836800" := by decide

example :
    calculateVersion
      ⟨"push", "refs/heads/master", testSha, some "master",
        some ⟨some "2020-01-01T00:00:00Z", some "Commit message"⟩, none, none⟩ ⟨none⟩
      ⟨.ok none, testCommit, pullsNone⟩ = .ok "0.1.0-alpha.1577836800" := by decide

example :
    calculateVersion
      ⟨"push", "refs/heads/master", testSha, some "master",
        some ⟨some "2020-01-01T00:00:00Z", some "Commit message (#4)"⟩, none, none⟩ ⟨none⟩
      ⟨.ok (some "v1.0.0"), testCommit,
        fun n => if n = 4 then .ok ⟨none, some [⟨"needs-release/major"⟩]⟩
                 else .error (.error "Not Found")⟩ = .ok "2.0.0-alpha.1577836800" := by decide

example :
    calculateVersion
      ⟨"push", "refs/heads/v2", testSha, some "master",
        some ⟨some "2020-01-01T00:00:00Z", some "Commit message"⟩, none, none⟩ ⟨none⟩
      ⟨.error (.error "x"), testCommit, pullsNone⟩ = .ok "2.0.0-alpha.1577836800" := by decide

example :
    calculateVersion
      ⟨"workflow_dispatch", "refs/heads/master", testSha, some "master", none, none, none⟩ ⟨none⟩
      ⟨.ok (some "v1.0.0"), testCommit, pullsNone⟩ = .ok "1.1.0-alpha.1577836800" := by decide

example :
    calculateVersion
      ⟨"repository_dispatch", "refs/heads/master", testSha, none, none, none, none⟩ ⟨none⟩
      ⟨.ok (some "v1.0.0"), testCommit, pullsNone⟩ =
      .ok "1.1.0-alpha.1577836800+699a10d" := by decide

example :
    calculateVersion
      ⟨"pull_request", "refs/pull/4/merge", testSha, some "main", none,
        some ⟨none, some "main", some [⟨"needs-release/major"⟩]⟩, none⟩ ⟨none⟩
      ⟨.ok (some "v1.2.1"), testCommit, pullsNone⟩ =
      .ok "2.0.0-alpha.1577836800+699a10d" := by decide

example :
    calculateVersion
      ⟨"pull_request", "refs/pull/4/merge", testSha, some "main", none,
        some ⟨none, some "main", some [⟨"needs-release/patch"⟩]⟩, none⟩ ⟨none⟩
      ⟨.ok (some "v1.2.1"), testCommit, pullsNone⟩ =
      .ok "1.2.2-alpha.1577836800+699a10d" := by decide

example :
    calculateVersion
      ⟨"pull_request", "refs/pull/4/merge", testSha, some "main", none,
        some ⟨none, some "v21", none⟩, none⟩ ⟨none⟩
      ⟨.error (.error "Not Found"), testCommit, pullsNone⟩ =
      .ok "0.1.0-alpha.1577836800+699a10d" := by decide

example :
    calculateVersion
      ⟨"schedule", "refs/heads/master", testSha, none, none, none, none⟩ ⟨none⟩
      ⟨.ok (some "v1.2.1"), testCommit, pullsNone⟩ =
      .ok "1.3.0-alpha.1577836800+699a10d" := by decide

example : findVersionBranch ⟨"push", "refs/heads/v1-rc", "", none, none, none, none⟩ = some 1 := by
  decide

example : tryParseVersionBranch (some "v1-rc") = none := by decide
example : tryParseVersionBranch (some "v21") = some 21 := by decide

/-! ## The claims -/

/-- C1, counterexample: for the pushed tag `v1.2.3+build` the code returns
`1.2.3` — the `.version` rendering of `node-semver` drops build metadata —
not the claimed `1.2.3+build`. -/
theorem c1_counterexample :
    calculateVersion ctxTagBuildMeta ⟨none⟩ ghEmpty = .ok "1.2.3" ∧
      ("1.2.3" : String) ≠ "1.2.3+build" := by
  constructor <;> decide

/-- C1 (amended): for a push event whose ref begins with `refs/tags/` and
whose tag parses as a valid semver version, `calculateVersion` returns the
parsed version's `.version` string — `X.Y.Z[-pre]`, with build metadata
dropped — exactly, with no `-alpha` suffix and no commit-hash suffix
appended. -/
theorem c1_tag_canonical (ctx : Context) (args : Args) (gh : GitHub) (v : SemVer)
    (hev : ctx.eventName = "push")
    (htag : jsStartsWith ctx.ref "refs/tags/" = true)
    (hparse : SemVer.new (jsReplaceFirst "refs/tags/" ctx.ref) = .ok v) :
    calculateVersion ctx args gh = .ok v.versionStr := by
  unfold calculateVersion
  rw [if_pos ⟨hev, htag⟩]
  unfold calculateTagVersion
  rw [hparse]

/-- C1 witness: the pre-release tag `v1.2.3-rc.1` keeps its pre-release
part and gets no alpha suffix. -/
theorem c1_tag_canonical_witness :
    calculateVersion ctxTagRC ⟨none⟩ ghEmpty =
      .ok (SemVer.versionStr ⟨1, 2, 3, ["rc", "1"], []⟩) :=
  c1_tag_canonical _ _ _ _ rfl (by decide) (by decide)

/-- C2: on the repository's own test input `pull_request / to version
branch` — base ref `v21`, no head ref in the payload, latest-release
lookup failing — the code returns `0.1.0-alpha.1577836800+699a10d`
because it reads `payload.pull_request.head.ref`, not the base ref; the
spec, the claim and the test all expect `21.0.0-alpha.1577836800+699a10d`. -/
theorem c2_head_ref_bug :
    calculateVersion ctxPRBaseV21 ⟨none⟩ ghDegraded =
        .ok "0.1.0-alpha.1577836800+699a10d" ∧
      ("0.1.0-alpha.1577836800+699a10d" : String) ≠ "21.0.0-alpha.1577836800+699a10d" := by
  constructor <;> decide

/-- C8: every event name outside push, workflow_dispatch, pull_request,
schedule and repository_dispatch makes `calculateVersion` fail with the
hard `Unsupported event` error. -/
theorem c8_unsupported_event (ctx : Context) (args : Args) (gh : GitHub)
    (h1 : ctx.eventName ≠ "push") (h2 : ctx.eventName ≠ "workflow_dispatch")
    (h3 : ctx.eventName ≠ "pull_request") (h4 : ctx.eventName ≠ "schedule")
    (h5 : ctx.eventName ≠ "repository_dispatch") :
    calculateVersion ctx args gh =
      .error (.error ("Unsupported event: " ++ ctx.eventName)) := by
  simp [calculateVersion, h1, h2, h3, h4, h5]

/-- C8 witness: a `deployment` event is rejected. -/
theorem c8_unsupported_event_witness :
    calculateVersion ctxOtherEvent ⟨none⟩ ghEmpty =
      .error (.error ("Unsupported event: " ++ "deployment")) :=
  c8_unsupported_event _ _ _ (by decide) (by decide) (by decide) (by decide) (by decide)

/-- C10: for push and pull_request events the result does not depend on
the explicit major-version override — the override is read only in the
schedule/repository_dispatch arm. -/
theorem c10_override_independent (ctx : Context) (gh : GitHub) (m₁ m₂ : Option Nat)
    (hev : ctx.eventName = "push" ∨ ctx.eventName = "pull_request") :
    calculateVersion ctx ⟨m₁⟩ gh = calculateVersion ctx ⟨m₂⟩ gh := by
  rcases hev with h | h <;> simp [calculateVersion, h]

/-- C10 witness: a push build computes the same string whether or not an
override of 5 is supplied. -/
theorem c10_override_independent_witness :
    calculateVersion ctxMainPush ⟨none⟩ (ghLatest "v1.0.0") =
      calculateVersion ctxMainPush ⟨some 5⟩ (ghLatest "v1.0.0") :=
  c10_override_independent _ _ _ _ (Or.inl rfl)

/-- C3: a degraded latest-release lookup — failed request, missing
release, or unparsable tag — substitutes version `0.0.0`, and the
lookup's outcome never changes the success/failure status of
`calculateVersion`: two runs that differ only in the latest-release
response succeed or fail together. -/
theorem c3_degraded_lookup (ctx : Context) (args : Args) (gh₁ gh₂ : GitHub)
    (hc : gh₁.commit = gh₂.commit) (hp : gh₁.pulls = gh₂.pulls)
    (hdeg : degradedLookup gh₂.latestRelease = true) :
    getLatestReleaseVersion gh₂ = SemVer.zero ∧
      isOkB (calculateVersion ctx args gh₁) = isOkB (calculateVersion ctx args gh₂) := by
  constructor
  · cases hl : gh₂.latestRelease with
    | error e => simp [getLatestReleaseVersion, hl]
    | ok o =>
      cases o with
      | none => simp [getLatestReleaseVersion, hl]
      | some t =>
        rw [hl] at hdeg
        simp only [degradedLookup] at hdeg
        rw [Option.isNone_iff_eq_none] at hdeg
        simp [getLatestReleaseVersion, hl, hdeg]
  · unfold calculateVersion
    split_ifs with h₁ h₂ h₃ h₄
    · rfl
    · exact branchPushFlow_isOk hc hp
    · exact pullRequestFlow_isOk hc
    · exact scheduleFlow_isOk hc
    · rfl

/-- C3 witness: a default-branch push succeeds identically whether the
latest-release request answers `v1.0.0` or throws; the degraded lookup
resolves to `0.0.0`. -/
theorem c3_degraded_lookup_witness :
    getLatestReleaseVersion ghDegraded = SemVer.zero ∧
      isOkB (calculateVersion ctxMainPush ⟨none⟩ (ghLatest "v1.0.0")) =
        isOkB (calculateVersion ctxMainPush ⟨none⟩ ghDegraded) :=
  c3_degraded_lookup _ _ _ _ rfl rfl (by decide)

/-- C7: `timestampToUnix` floors the parsed epoch-millisecond value to
whole seconds (`…00.999Z` maps to `…00`), but on an unparsable timestamp
it raises `ReferenceError: commitDate is not defined` — the `throw` in
the source names a variable that is not in scope — instead of the
intended `Invalid commit date` error; the third conjunct characterises
the function on every input. -/
theorem c7_timestamp :
    timestampToUnix (some "2020-01-01T00:00:00.999Z") = .ok 1577836800 ∧
      timestampToUnix (some "not-a-date") =
        .error (.referenceError "commitDate is not defined") ∧
      ∀ ts : String,
        timestampToUnix (some ts) =
          match jsDateParse ts with
          | some ms => .ok (Int.fdiv ms 1000)
          | none => .error (.referenceError "commitDate is not defined") := by
  refine ⟨by decide, by decide, ?_⟩
  intro ts
  unfold timestampToUnix
  dsimp only
  cases jsDateParse ts <;> rfl

/-- C9, counterexample: `findVersionBranch` matches its pattern
unanchored, so the push ref `refs/heads/v1-rc` — whose branch name
`v1-rc` does not match the anchored `^v(\d+)$` — still yields 1. -/
theorem c9_counterexample :
    findVersionBranch ctxV1RC = some 1 ∧ tryParseVersionBranch (some "v1-rc") = none := by
  constructor <;> decide

/-- C9 (amended): the branch-name-level detection `tryParseVersionBranch`
(the one `calculateVersion` uses) returns `N` exactly when the branch
name is `v` followed by one or more digits whose value is `N` — the
anchored `^v(\d+)$`; the context-level `findVersionBranch` instead
applies the unanchored pattern `refs\/heads\/v(\d+)` anywhere in the ref,
so refs such as `refs/heads/v1-rc` do produce a match. -/
theorem c9_anchored (s : String) (n : Nat) :
    tryParseVersionBranch (some s) = some n ↔
      ∃ ds : List Char, ds ≠ [] ∧ ds.all Char.isDigit = true ∧
        s.toList = 'v' :: ds ∧ n = parseDecDigits ds := by
  obtain ⟨l⟩ := s
  unfold tryParseVersionBranch
  dsimp only
  by_cases h0 : String.mk l = ""
  · rw [if_pos h0]
    have hl : l = [] := by
      have := congrArg String.data h0
      simpa using this
    subst hl
    simp
  · rw [if_neg h0]
    cases l with
    | nil => exact absurd rfl h0
    | cons c rest =>
      dsimp only [String.toList]
      by_cases hcond : c = 'v' ∧ rest ≠ [] ∧ rest.all Char.isDigit = true
      · rw [if_pos hcond]
        obtain ⟨rfl, hne, hdig⟩ := hcond
        constructor
        · intro h
          injection h with h'
          exact ⟨rest, hne, hdig, rfl, h'.symm⟩
        · rintro ⟨ds, _, _, heq, hn⟩
          have hds : rest = ds := by
            have : 'v' :: rest = 'v' :: ds := heq
            injection this
          subst hds
          rw [hn]
      · rw [if_neg hcond]
        constructor
        · intro h
          cases h
        · rintro ⟨ds, hne', hdig', heq, hn⟩
          have heq' : c :: rest = 'v' :: ds := heq
          injection heq' with hc hrest
          subst hrest
          exact absurd ⟨hc, hne', hdig'⟩ hcond

/-- C4, counterexample: pushing `v2` — a non-default branch — with latest
release `v1.0.0` yields `2.0.0-alpha.1577836800`, not the claimed
`1.1.0-alpha.1577836800+699a10d`: version branches bypass the
minor-increment flow and get no hash suffix. -/
theorem c4_counterexample :
    calculateVersion ctxVersionBranchPush ⟨none⟩ (ghLatest "v1.0.0") =
        .ok "2.0.0-alpha.1577836800" ∧
      ("2.0.0-alpha.1577836800" : String) ≠ "1.1.0-alpha.1577836800+699a10d" := by
  constructor <;> decide

/-- C4 (amended): for a push to a branch that is neither the default
branch nor a version branch `v<N>`, with latest release parsing as
`A.B.C` (no pre-release part), the result is
`A.(B+1).0-alpha.<timestamp>+<shortHash>` — the minor component is
incremented regardless of the head commit's message, the hash suffix is
present, and the short hash is the first 7 hex characters of the 40-hex
sha. -/
theorem c4_other_branch (ctx : Context) (args : Args) (gh : GitHub)
    (bn tag ts msg : String) (A B C : Nat) (bld : List String) (ms : Int)
    (hev : ctx.eventName = "push")
    (href : ctx.ref = "refs/heads/" ++ bn)
    (hvb : tryParseVersionBranch (some bn) = none)
    (hdef : ctx.defaultBranch ≠ some bn)
    (hhc : ctx.headCommit = some ⟨some ts, some msg⟩)
    (hlr : gh.latestRelease = .ok (some tag))
    (htag : SemVer.parse tag = some ⟨A, B, C, [], bld⟩)
    (hts : jsDateParse ts = some ms)
    (hsha : ctx.sha.toList.length = 40)
    (hhex : ∀ c ∈ ctx.sha.toList, isHexChar c = true) :
    calculateVersion ctx args gh =
        .ok (SemVer.versionStr ⟨A, B + 1, 0, [], bld⟩ ++ "-alpha." ++
          intToString (Int.fdiv ms 1000) ++ "+" ++ shortHash ctx.sha) ∧
      SemVer.versionStr ⟨A, B + 1, 0, [], bld⟩ =
        jsNumToString A ++ "." ++ jsNumToString (B + 1) ++ ".0" ∧
      (shortHash ctx.sha).toList.length = 7 ∧
      ∀ c ∈ (shortHash ctx.sha).toList, isHexChar c = true := by
  have hne : ¬(ctx.eventName = "push" ∧ jsStartsWith ctx.ref "refs/tags/" = true) := by
    rintro ⟨-, htg⟩
    rw [href, not_startsWith_tags] at htg
    cases htg
  have hbr : (ctx.eventName = "push" ∨ ctx.eventName = "workflow_dispatch") ∧
      jsStartsWith ctx.ref "refs/heads/" = true := by
    refine ⟨Or.inl hev, ?_⟩
    rw [href]
    exact startsWith_heads bn
  refine ⟨?_, ?_, ?_, ?_⟩
  · unfold calculateVersion
    rw [if_neg hne, if_pos hbr]
    unfold branchPushFlow
    have hrhc : resolveHeadCommit ctx gh = .ok (some ts, some msg) := by
      simp [resolveHeadCommit, hhc]
    rw [hrhc]
    dsimp only
    rw [href, replaceFirst_heads, hvb]
    dsimp only
    rw [if_neg hdef]
    have hglrv : getLatestReleaseVersion gh = ⟨A, B, C, [], bld⟩ := by
      simp [getLatestReleaseVersion, hlr, htag]
    rw [hglrv]
    have hinc : SemVer.inc ⟨A, B, C, [], bld⟩ .minor = ⟨A, B + 1, 0, [], bld⟩ := by
      simp [SemVer.inc]
    rw [hinc]
    unfold localAlphaVersion
    have htu : timestampToUnix (some ts) = .ok (Int.fdiv ms 1000) := by
      simp [timestampToUnix, hts]
    rw [htu]
  · have hcore : SemVer.versionStr ⟨A, B + 1, 0, [], bld⟩ =
        jsNumToString A ++ "." ++ jsNumToString (B + 1) ++ "." ++ jsNumToString 0 := rfl
    rw [hcore, String.append_assoc]
    rfl
  · show (ctx.sha.toList.take 7).length = 7
    rw [List.length_take, hsha]
    decide
  · intro c hc
    exact hhex c (List.take_subset 7 _ hc)

/-- C4 witness: pushing `feature-x` over latest release `v1.0.0` gives
`1.1.0-alpha.1577836800+699a10d`. -/
theorem c4_other_branch_witness :
    calculateVersion ctxFeaturePush ⟨none⟩ (ghLatest "v1.0.0") =
        .ok (SemVer.versionStr ⟨1, 0 + 1, 0, [], []⟩ ++ "-alpha." ++
          intToString (Int.fdiv 1577836800000 1000) ++ "+" ++ shortHash testSha) ∧
      SemVer.versionStr ⟨1, 0 + 1, 0, [], []⟩ =
        jsNumToString 1 ++ "." ++ jsNumToString (0 + 1) ++ ".0" ∧
      (shortHash testSha).toList.length = 7 ∧
      ∀ c ∈ (shortHash testSha).toList, isHexChar c = true :=
  c4_other_branch _ _ _ "feature-x" "v1.0.0" "2020-01-01T00:00:00Z" "Commit message"
    1 0 0 [] 1577836800000 rfl rfl (by decide) (by decide) rfl rfl (by decide) (by decide)
    (by decide) (by decide)

/-- C5: the label mapping equals the spec's priority table — major, then
minor, then patch, first match wins, default minor — and, end to end:
with latest release `v1.2.1` a PR labelled `needs-release/major` builds
base `2.0.0`, one labelled `needs-release/patch` builds base `1.2.2`, and
a default-branch push whose commit cites a major-labelled PR builds base
`2.0.0`. -/
theorem c5_label_priority :
    (∀ labels : Option (List Label),
        getIncrementTypeFromLabels labels = incrementFromLabelsSpec labels) ∧
      calculateVersion (ctxPRWithLabels [⟨"needs-release/major"⟩]) ⟨none⟩ (ghLatest "v1.2.1") =
        .ok "2.0.0-alpha.1577836800+699a10d" ∧
      calculateVersion (ctxPRWithLabels [⟨"needs-release/patch"⟩]) ⟨none⟩ (ghLatest "v1.2.1") =
        .ok "1.2.2-alpha.1577836800+699a10d" ∧
      calculateVersion ctxMainPushPR4 ⟨none⟩ ghMajorLabelPR = .ok "2.0.0-alpha.1577836800" := by
  refine ⟨?_, by decide, by decide, by decide⟩
  intro labels
  unfold getIncrementTypeFromLabels incrementFromLabelsSpec labelPriority
  cases h1 : (labels.getD []).any (fun l => l.name = "needs-release/major") <;>
    cases h2 : (labels.getD []).any (fun l => l.name = "needs-release/minor") <;>
      cases h3 : (labels.getD []).any (fun l => l.name = "needs-release/patch") <;>
        simp [List.find?, h1, h2, h3]

/-- C6, counterexample: an override of `9007199254740992 = 2^53` (one
above `MAX_SAFE_INTEGER`) differing from the resolved major makes the
schedule flow throw from `new SemVer(:{override}.0.0:)` instead of
producing base `9007199254740992.0.0`. -/
theorem c6_counterexample :
    isOkB (calculateVersion ctxSchedule ⟨some 9007199254740992⟩ (ghLatest "v1.0.0")) =
      false := by decide

/-- C6 (amended): for a schedule or repository_dispatch event with
override `M ≤ MAX_SAFE_INTEGER`: the resolver computes the latest release
incremented by minor; if its major differs from `M` the base version
becomes exactly `M.0.0`, and if it equals `M` the minor-incremented
version is kept unchanged. -/
theorem c6_major_override (ctx : Context) (gh : GitHub) (M : Nat) (cts : String)
    (cmsg : Option String) (ms : Int)
    (hev : ctx.eventName = "schedule" ∨ ctx.eventName = "repository_dispatch")
    (hM : M ≤ maxSafeInteger)
    (hcm : gh.commit = .ok (some ⟨some cts, cmsg⟩))
    (hts : jsDateParse cts = some ms) :
    calculateVersion ctx ⟨some M⟩ gh =
      .ok (SemVer.versionStr
          (if ((getLatestReleaseVersion gh).inc .minor).major = M
            then (getLatestReleaseVersion gh).inc .minor
            else ⟨M, 0, 0, [], []⟩) ++
        "-alpha." ++ intToString (Int.fdiv ms 1000) ++ "+" ++ shortHash ctx.sha) := by
  have h1 : ¬(ctx.eventName = "push" ∧ jsStartsWith ctx.ref "refs/tags/" = true) := by
    rintro ⟨h', -⟩
    rcases hev with h | h <;> rw [h] at h' <;> exact absurd h' (by decide)
  have h2 : ¬((ctx.eventName = "push" ∨ ctx.eventName = "workflow_dispatch") ∧
      jsStartsWith ctx.ref "refs/heads/" = true) := by
    rintro ⟨h' | h', -⟩ <;>
      rcases hev with h | h <;> rw [h] at h' <;> exact absurd h' (by decide)
  have h3 : ¬(ctx.eventName = "pull_request") := by
    intro h'
    rcases hev with h | h <;> rw [h] at h' <;> exact absurd h' (by decide)
  have h4 : ctx.eventName = "schedule" ∨ ctx.eventName = "repository_dispatch" := hev
  unfold calculateVersion
  rw [if_neg h1, if_neg h2, if_neg h3, if_pos h4]
  unfold scheduleFlow
  dsimp only
  have hgc : getCommit gh ctx.sha = .ok ⟨some cts, cmsg⟩ := by
    simp [getCommit, hcm]
  have htu : timestampToUnix (some cts) = .ok (Int.fdiv ms 1000) := by
    simp [timestampToUnix, hts]
  by_cases hmaj : ((getLatestReleaseVersion gh).inc .minor).major = M
  · have hens : ensureMajorVersion ((getLatestReleaseVersion gh).inc .minor) (some M) =
        .ok ((getLatestReleaseVersion gh).inc .minor) := by
      simp only [ensureMajorVersion]
      rw [if_pos hmaj]
    rw [hens]
    dsimp only
    rw [hgc]
    dsimp only
    unfold localAlphaVersion
    rw [htu, shortHash_idem, if_pos hmaj]
  · have hens : ensureMajorVersion ((getLatestReleaseVersion gh).inc .minor) (some M) =
        .ok ⟨M, 0, 0, [], []⟩ := by
      simp only [ensureMajorVersion]
      rw [if_neg hmaj, semverNew_numStr, if_pos hM]
    rw [hens]
    dsimp only
    rw [hgc]
    dsimp only
    unfold localAlphaVersion
    rw [htu, shortHash_idem, if_neg hmaj]

/-- C6 witness: a scheduled build with latest release `v1.0.0` and
override 5 resolves `1.1.0`, whose major differs from 5, so the base
becomes `5.0.0`. -/
theorem c6_major_override_witness :
    calculateVersion ctxSchedule ⟨some 5⟩ (ghLatest "v1.0.0") =
      .ok (SemVer.versionStr
          (if ((getLatestReleaseVersion (ghLatest "v1.0.0")).inc .minor).major = 5
            then (getLatestReleaseVersion (ghLatest "v1.0.0")).inc .minor
            else ⟨5, 0, 0, [], []⟩) ++
        "-alpha." ++ intToString (Int.fdiv 1577836800000 1000) ++ "+" ++ shortHash testSha) :=
  c6_major_override _ _ 5 "2020-01-01T00:00:00Z" (some "Commit message") 1577836800000
    (Or.inl rfl) (by decide) rfl (by decide)

end ProviderVersion
